import Mathlib

/-!
Verification development for the `chinese-tutor` repository's real-time
session orchestration layer.

The Lean definitions below are a shallow embedding of the Python source:

* `src/chinese_tutor/elevenlabs_client.py` — `HalfDuplexAudioInterface`
  (audio gate), `_safe_emit`, `_watch_stop_event`, `run_conversation`;
* `src/chinese_tutor/web.py` — `_start_chat_stream` (worker thread and
  event queue), `stream_chat.event_generator`, `stop_chat`;
* `src/chinese_tutor/storage.py` — `insert_vocab_items`.

Pure accumulation logic is embedded as Lean functions; stateful code is
embedded as explicit state passing; wall-clock instants are rational
numbers supplied as inputs.
-/

namespace ChineseTutor

/-! ## Session driver: callbacks and accumulators (`run_conversation`) -/

/-- One textual callback delivered by the transport while the session runs:
`callback_user_transcript`, `callback_agent_response`, or
`callback_agent_response_correction(original, corrected)`. -/
inductive Callback
  | user (transcript : String)
  | agent (response : String)
  | correction (original corrected : String)
deriving DecidableEq, Repr

/-- The three accumulator lists that `run_conversation` closes over:
`user_lines`, `agent_lines`, `transcript_lines`. -/
structure ConvAccum where
  user_lines : List String
  agent_lines : List String
  transcript_lines : List String
deriving DecidableEq, Repr

/-- Empty accumulators, as initialized at the top of `run_conversation`. -/
def ConvAccum.init : ConvAccum := ⟨[], [], []⟩

/-- Effect of one callback on the accumulators, read off the bodies of
`on_user_transcript`, `on_agent_response` and `on_agent_correction`:
each appends one tagged line to `transcript_lines` and the raw text to
the speaker's own list; a correction appends its corrected text under
the `Agent:` tag. -/
def applyCallback (acc : ConvAccum) : Callback → ConvAccum
  | .user t =>
      { acc with
        transcript_lines := acc.transcript_lines ++ ["User: " ++ t],
        user_lines := acc.user_lines ++ [t] }
  | .agent r =>
      { acc with
        transcript_lines := acc.transcript_lines ++ ["Agent: " ++ r],
        agent_lines := acc.agent_lines ++ [r] }
  | .correction _ c =>
      { acc with
        transcript_lines := acc.transcript_lines ++ ["Agent: " ++ c],
        agent_lines := acc.agent_lines ++ [c] }

/-- Accumulators after a whole arrival-ordered callback sequence. -/
def accumulate (cbs : List Callback) : ConvAccum :=
  cbs.foldl applyCallback ConvAccum.init

/-- The `ConversationResult` dataclass from `elevenlabs_client.py`. -/
structure ConversationResult where
  started_at : String
  ended_at : String
  transcript_text : String
  metadata : List (String × String)
  user_text : String
  agent_text : String
deriving DecidableEq, Repr

/-- Result assembly at the tail of `run_conversation`: the three
accumulators are joined with newlines and the conversation id reported
by `wait_for_session_end` becomes the one metadata entry. -/
def runConversation (cbs : List Callback)
    (conversation_id started_at ended_at : String) : ConversationResult :=
  let acc := accumulate cbs
  { started_at := started_at
    ended_at := ended_at
    transcript_text := String.intercalate "\n" acc.transcript_lines
    metadata := [("conversation_id", conversation_id)]
    user_text := String.intercalate "\n" acc.user_lines
    agent_text := String.intercalate "\n" acc.agent_lines }

/-- Speaker-tagged line for one callback, matching the strings built
inside the three callback hooks. -/
def taggedLine : Callback → String
  | .user t => "User: " ++ t
  | .agent r => "Agent: " ++ r
  | .correction _ c => "Agent: " ++ c

/-- The raw user utterances of a callback sequence, in arrival order. -/
def userUtterances (cbs : List Callback) : List String :=
  cbs.filterMap fun
    | .user t => some t
    | .agent _ => none
    | .correction _ _ => none

/-- The raw agent utterances of a callback sequence, in arrival order;
a correction contributes its corrected text. -/
def agentUtterances (cbs : List Callback) : List String :=
  cbs.filterMap fun
    | .user _ => none
    | .agent r => some r
    | .correction _ c => some c

/-! ## Events surfaced to the streaming consumer

`run_conversation` and the web worker push Python dicts through the
event callback / asyncio queue.  `Event` enumerates every dict shape the
code constructs; `serialize` reproduces the exact key/value structure. -/

/-- A vocab item as produced by the extractor and forwarded in the
`vocab` event: a flat mapping of string fields. -/
abbrev VocabItem : Type := List (String × String)

/-- JSON-like values appearing in event dicts: strings, integers, null
(`None`), or a list of flat string maps (the `items` of a `vocab`
event). -/
inductive JValue
  | str (s : String)
  | int (n : Int)
  | null
  | arr (items : List VocabItem)
deriving DecidableEq, Repr

/-- Events that `run_conversation` itself can emit through
`_safe_emit` (together with the watcher's stopping notice); note there
is no `done` variant here — `done` is pushed only by the web worker. -/
inductive ConvEvent
  | status (message : String)
  | user_transcript (text timestamp : String)
  | agent_response (text timestamp : String)
  | agent_correction (text timestamp : String)
  | summary (user_lines agent_lines : Nat) (conversation_id : String)
deriving DecidableEq, Repr

/-- Every event shape pushed onto the web worker's queue: the
`run_conversation` events plus the worker's own `status`, `vocab`,
`error` and the two `done` dict shapes (success path with full fields,
exception path with only `exit_code = 1`). -/
inductive Event
  | status (message : String)
  | user_transcript (text timestamp : String)
  | agent_response (text timestamp : String)
  | agent_correction (text timestamp : String)
  | summary (user_lines agent_lines : Nat) (conversation_id : String)
  | vocab (items : List VocabItem)
  | error (message : String)
  | doneOk (conversation_id : Option String) (session_id : Option Nat)
      (vocab_count : Nat) (started_at ended_at : String)
  | doneErr
deriving DecidableEq, Repr

/-- Embed a `run_conversation` event into the worker-queue event type. -/
def ConvEvent.toEvent : ConvEvent → Event
  | .status m => .status m
  | .user_transcript t ts => .user_transcript t ts
  | .agent_response t ts => .agent_response t ts
  | .agent_correction t ts => .agent_correction t ts
  | .summary u a cid => .summary u a cid

/-- Whether an event is a `done` event (either dict shape). -/
def Event.isDone : Event → Bool
  | .doneOk _ _ _ _ _ => true
  | .doneErr => true
  | _ => false

/-- The `exit_code` field of a `done` event, when present. -/
def Event.exitCode : Event → Option Nat
  | .doneOk _ _ _ _ _ => some 0
  | .doneErr => some 1
  | _ => none

/-- The `"type"` field string of each event dict, exactly as written in
the Python source. -/
def Event.typeOf : Event → String
  | .status _ => "status"
  | .user_transcript _ _ => "user_transcript"
  | .agent_response _ _ => "agent_response"
  | .agent_correction _ _ => "agent_correction"
  | .summary _ _ _ => "summary"
  | .vocab _ => "vocab"
  | .error _ => "error"
  | .doneOk _ _ _ _ _ => "done"
  | .doneErr => "done"

/-- Serialization of an `Option` into a JSON value (`None` → null). -/
def optStr : Option String → JValue
  | none => JValue.null
  | some s => JValue.str s

/-- Serialization of an optional integer (`None` → null). -/
def optNat : Option Nat → JValue
  | none => JValue.null
  | some n => JValue.int n

/-- The dict each event is pushed as, key for key from the Python
source (`run_conversation`'s `_safe_emit` calls and the worker's `push`
calls in `_start_chat_stream`). Counts in the `summary` event are
stringified (`str(len(...))`); counts in the `done` event are raw
integers. -/
def serialize : Event → List (String × JValue)
  | .status m => [("type", .str "status"), ("message", .str m)]
  | .user_transcript t ts =>
      [("type", .str "user_transcript"), ("text", .str t), ("timestamp", .str ts)]
  | .agent_response t ts =>
      [("type", .str "agent_response"), ("text", .str t), ("timestamp", .str ts)]
  | .agent_correction t ts =>
      [("type", .str "agent_correction"), ("text", .str t), ("timestamp", .str ts)]
  | .summary u a cid =>
      [("type", .str "summary"), ("user_lines", .str (toString u)),
       ("agent_lines", .str (toString a)), ("conversation_id", .str cid)]
  | .vocab items => [("type", .str "vocab"), ("items", .arr items)]
  | .error m => [("type", .str "error"), ("message", .str m)]
  | .doneOk cid sid vc s e =>
      [("type", .str "done"), ("exit_code", .int 0), ("conversation_id", optStr cid),
       ("session_id", optNat sid), ("vocab_count", .int vc),
       ("started_at", .str s), ("ended_at", .str e)]
  | .doneErr => [("type", .str "done"), ("exit_code", .int 1)]

/-- Whether a JSON value is a plain string. -/
def JValue.isStr : JValue → Bool
  | .str _ => true
  | _ => false

/-- Whether a JSON value is scalar (string, integer or null) — i.e. the
dict containing it is "flat" at this key. -/
def JValue.isScalar : JValue → Bool
  | .str _ => true
  | .int _ => true
  | .null => true
  | .arr _ => false

/-- A serialized event is a flat mapping of string fields when every
value is a plain string. -/
def flatStringMap (fields : List (String × JValue)) : Bool :=
  fields.all fun p => p.2.isStr

/-- A serialized event is flat when every value is scalar. -/
def flatScalarMap (fields : List (String × JValue)) : Bool :=
  fields.all fun p => p.2.isScalar

/-! ## The web worker's event trace (`_start_chat_stream.worker`) -/

/-- Lookup in the string-map metadata (`result.metadata.get(key)`). -/
def metaLookup (m : List (String × String)) (key : String) : Option String :=
  (m.find? fun p => p.1 == key).map Prod.snd

/-- Value of `result.metadata.get("conversation_id")` for the done event. -/
def convIdOf (r : ConversationResult) : Option String :=
  metaLookup r.metadata "conversation_id"

/-- Python truthiness of the optional integer `session_id` returned by
`_persist_conversation` (`if session_id:` — false for `None` and `0`). -/
def sessionIdTruthy : Option Nat → Bool
  | none => false
  | some n => n != 0

/-- How one run of `run_conversation` inside the worker thread went:
either it returned a result (after emitting `inner` events through the
event callback, in some interleaving with the stop watcher), the
persistence step yielding `session_id` and `vocab_items`; or it raised
after having emitted `emitted` events, with exception text `msg`. -/
inductive RunOutcome
  | ok (r : ConversationResult) (inner : List ConvEvent)
      (session_id : Option Nat) (vocab_items : List VocabItem)
  | fail (emitted : List ConvEvent) (msg : String)

/-- The full ordered sequence of events the worker pushes onto the
asyncio queue, read off `_start_chat_stream.worker`: the opening status,
everything `run_conversation` emitted, then on success the optional
save/captured statuses, the optional `vocab` event and the success
`done`; on an exception the `error` event and the failure `done`. -/
def workerEvents : RunOutcome → List Event
  | .ok r inner sid items =>
      [Event.status "Starting live chat..."]
        ++ inner.map ConvEvent.toEvent
        ++ (if sessionIdTruthy sid then [Event.status "Saved session locally."] else [])
        ++ (if items.isEmpty then []
            else [Event.status ("Captured " ++ toString items.length ++ " vocab items.")])
        ++ (if items.isEmpty then [] else [Event.vocab items])
        ++ [Event.doneOk (convIdOf r) sid items.length r.started_at r.ended_at]
  | .fail emitted msg =>
      [Event.status "Starting live chat..."]
        ++ emitted.map ConvEvent.toEvent
        ++ [Event.error msg, Event.doneErr]

/-- Number of `done` events in a trace. -/
def countDone (l : List Event) : Nat :=
  (l.filter Event.isDone).length

/-- The events `stream_chat.event_generator` yields to the SSE client:
it reads from the queue, forwards each event, and breaks out of its
loop immediately after forwarding a `done` event, closing the stream. -/
def deliverUntilDone : List Event → List Event
  | [] => []
  | e :: rest => if e.isDone then [e] else e :: deliverUntilDone rest

/-- Events remaining undelivered once the generator has closed; reading
again after `done` yields exactly these (none, per claim C1). -/
def undelivered (l : List Event) : List Event :=
  l.drop (deliverUntilDone l).length

/-- Effect of `threading.Event.set()` on the stop event: sets the flag; setting an
already-set flag is a no-op. -/
def setStopEvent (_flag : Bool) : Bool := true

/-! ## `run_conversation` end-to-end, including audio initialization -/

/-- Build the event a callback emits (timestamp supplied by the clock). -/
def callbackConvEvent : Callback → String → ConvEvent
  | .user t, ts => .user_transcript t ts
  | .agent r, ts => .agent_response r ts
  | .correction _ c, ts => .agent_correction c ts

/-- The events `run_conversation` emits on a successful run, in source
order: the connecting status, the session-started status, one event per
callback (paired with its timestamp), then the summary and the finished
status. (The stop watcher's "Stopping conversation..." status may
interleave; traces with it are covered by the free `inner` parameter of
`workerEvents`.) -/
def convEvents (agent_id : String) (cbs : List Callback) (tss : List String)
    (conversation_id : String) : List ConvEvent :=
  let acc := accumulate cbs
  [ConvEvent.status ("Connecting to ElevenLabs Agent " ++ agent_id),
   ConvEvent.status "Session started"]
    ++ List.zipWith callbackConvEvent cbs tss
    ++ [ConvEvent.summary acc.user_lines.length acc.agent_lines.length conversation_id,
        ConvEvent.status "Conversation finished"]

/-- The configuration-style failure `run_conversation` raises when the
audio interface cannot be constructed. -/
inductive ConvFailure
  | audioInit (message : String)
deriving DecidableEq, Repr

/-- Exact message of the `RuntimeError` raised on audio failure. -/
def audioErrorMessage : String :=
  "Could not initialize audio. Make sure PyAudio/PortAudio is installed and microphones/speakers are available."

/-- Observable outcome of one `run_conversation` call: its result or
raised error, the events it emitted, and whether the transport client
was constructed / a session open was requested. -/
structure ConvRun where
  result : Except ConvFailure ConversationResult
  events : List ConvEvent
  clientCreated : Bool
  connectAttempted : Bool
deriving Repr

/-- Model of `run_conversation` from the top: constructing the audio interface is
the first fallible step and precedes the `ElevenLabs(...)` client, the
`Conversation(...)` wiring, every `_safe_emit` call and
`start_session()`; if it raises, the `RuntimeError` propagates with
nothing emitted and no connection attempted. -/
def runConversationFull (audioInitOk : Bool) (agent_id : String)
    (cbs : List Callback) (tss : List String)
    (conversation_id started_at ended_at : String) : ConvRun :=
  if audioInitOk then
    { result := Except.ok (runConversation cbs conversation_id started_at ended_at)
      events := convEvents agent_id cbs tss conversation_id
      clientCreated := true
      connectAttempted := true }
  else
    { result := Except.error (ConvFailure.audioInit audioErrorMessage)
      events := []
      clientCreated := false
      connectAttempted := false }

/-! ## Active-chat handle (`app.state.active_chat`, start/stop routes) -/

/-- The `ActiveChat` dataclass: the stop event flag (the worker thread
reference is irrelevant to the claims and elided). -/
structure ActiveChat where
  stop_event : Bool
deriving DecidableEq, Repr

/-- State of `app.state` for the claims: the optional active-chat handle. -/
structure AppState where
  active_chat : Option ActiveChat
deriving DecidableEq, Repr

/-- The HTTP 409 rejection `_start_chat_stream` raises. -/
inductive StartError
  | alreadyRunning (status_code : Nat) (detail : String)
deriving DecidableEq, Repr

/-- Model of `_start_chat_stream`: if a chat is active, raise the 409 before
creating any queue, stop event or worker thread (state untouched);
otherwise install a fresh handle with an unset stop event. Returns the
post-call state and either the error or the new handle. -/
def startChatStream (st : AppState) : AppState × Except StartError ActiveChat :=
  match st.active_chat with
  | some _ =>
      (st, Except.error (StartError.alreadyRunning 409
        "A chat is already running. Stop it before starting a new one."))
  | none =>
      let chat : ActiveChat := { stop_event := false }
      ({ active_chat := some chat }, Except.ok chat)

/-- The `stop_chat` route: with no active chat it reports
`{"stopped": false}`; otherwise it sets the stop event and reports
`{"stopped": true}`. -/
def stopChat (st : AppState) : AppState × Bool :=
  match st.active_chat with
  | none => (st, false)
  | some c =>
      ({ active_chat := some { c with stop_event := setStopEvent c.stop_event } }, true)

/-! ## `_safe_emit` and sink isolation -/

/-- The consumer-supplied sink's observable record: which deliveries
were attempted and which completed without the sink raising. -/
structure SinkState where
  attempted : List Event
  delivered : List Event
deriving DecidableEq, Repr

/-- Model of `_safe_emit(callback, event)`: the callback is invoked inside
`try/except Exception`; a raise is logged (`logger.debug`) and
swallowed, so `_safe_emit` itself always returns normally. `throws e`
models whether the consumer's handler raises on event `e`. -/
def safeEmit (throws : Event → Bool) (st : SinkState) (e : Event) : SinkState :=
  { attempted := st.attempted ++ [e]
    delivered := if throws e then st.delivered else st.delivered ++ [e] }

/-- Driver-side state while callbacks arrive: the accumulators plus the
sink record. -/
structure DriverState where
  acc : ConvAccum
  sink : SinkState
deriving DecidableEq, Repr

/-- One callback hook firing: the accumulator appends happen first, then
`_safe_emit` forwards the matching event (source order in
`on_user_transcript` / `on_agent_response` / `on_agent_correction`).
Because `_safe_emit` swallows sink exceptions, the hook always returns
and the driver proceeds to the next callback. -/
def handleCallback (throws : Event → Bool) (st : DriverState)
    (p : Callback × String) : DriverState :=
  { acc := applyCallback st.acc p.1
    sink := safeEmit throws st.sink (ConvEvent.toEvent (callbackConvEvent p.1 p.2)) }

/-- The driver processing a whole timestamped callback sequence. -/
def runDriver (throws : Event → Bool) (cbs : List (Callback × String))
    (st : DriverState) : DriverState :=
  cbs.foldl (handleCallback throws) st

/-! ## `insert_vocab_items` (`storage.py`) -/

/-- One dict passed to `insert_vocab_items`; each field is
`item.get(...)`, absent keys yielding `None`. -/
structure VocabInsertItem where
  english : Option String
  chinese : Option String
  pinyin : Option String
  exampleText : Option String
deriving DecidableEq, Repr

/-- Python's `x or ""` on an optional string: `None` (and `""`) become
`""`. -/
def orEmpty : Option String → String
  | none => ""
  | some s => s

/-- The dedup key `(item.get("english") or "", item.get("chinese") or "")`. -/
def keyOf (i : VocabInsertItem) : String × String :=
  (orEmpty i.english, orEmpty i.chinese)

/-- One row of the `vocab` table as inserted by `insert_vocab_items`
(the shared `created_at` and `source_session_id` are constant across
the call and elided). -/
structure VocabRow where
  rowid : Nat
  english : String
  chinese : String
  pinyin : String
  exampleText : String
deriving DecidableEq, Repr

/-- The row built for one item (`firstId + k` models the `lastrowid`
handed out for the `k`-th insert of the call). -/
def rowOf (rid : Nat) (i : VocabInsertItem) : VocabRow :=
  { rowid := rid
    english := orEmpty i.english
    chinese := orEmpty i.chinese
    pinyin := orEmpty i.pinyin
    exampleText := orEmpty i.exampleText }

/-- Loop state of `insert_vocab_items`: the `seen_pairs` set, the `ids`
list, and the rows inserted so far. -/
structure InsertState where
  seen : List (String × String)
  ids : List Nat
  rows : List VocabRow
deriving DecidableEq, Repr

/-- One iteration of the `for item in items` loop: skip when the key is
already in `seen_pairs`, otherwise add the key, insert the row, and
append its `lastrowid`. -/
def insertStep (firstId : Nat) (st : InsertState) (item : VocabInsertItem) :
    InsertState :=
  if keyOf item ∈ st.seen then st
  else
    { seen := keyOf item :: st.seen
      ids := st.ids ++ [firstId + st.rows.length]
      rows := st.rows ++ [rowOf (firstId + st.rows.length) item] }

/-- Model of `insert_vocab_items(items, ...)`: returns the ids list and (as the
model of the database effect) the inserted rows. `firstId` is the rowid
SQLite hands to the first insert of the call. -/
def insertVocabItems (items : List VocabInsertItem) (firstId : Nat) :
    List Nat × List VocabRow :=
  let st := items.foldl (insertStep firstId) ⟨[], [], []⟩
  (st.ids, st.rows)

/-- Spec-side description of which items survive the call, following the
claim's words: an item is kept unless some earlier item of the same call
has an equal `(english, chinese)` pair; kept items stay in arrival
order. -/
def specFirstOccurrences (seen : List (String × String)) :
    List VocabInsertItem → List VocabInsertItem
  | [] => []
  | i :: rest =>
      if keyOf i ∈ seen then specFirstOccurrences seen rest
      else i :: specFirstOccurrences (keyOf i :: seen) rest

/-! ## Audio gate (`HalfDuplexAudioInterface`) -/

/-- Source constant `SAMPLE_WIDTH_BYTES = 2` (16-bit PCM). -/
def SAMPLE_WIDTH_BYTES : ℕ := 2

/-- Source constant `SAMPLE_RATE = 16000`. -/
def SAMPLE_RATE : ℕ := 16000

/-- Source constant `MUTE_PADDING_SECONDS = 0.2`. -/
def MUTE_PADDING_SECONDS : ℚ := 1 / 5

/-- One playback chunk as processed by `_output_thread`: the value of
`time.monotonic()` when the chunk is taken off the output queue, and
`len(audio)` in bytes. -/
structure Chunk where
  arrival : ℚ
  byte_length : ℕ
deriving DecidableEq, Repr

/-- Chunk duration `duration_seconds = len(audio) / (SAMPLE_WIDTH_BYTES * SAMPLE_RATE)`. -/
def chunkDuration (c : Chunk) : ℚ :=
  (c.byte_length : ℚ) / ((SAMPLE_WIDTH_BYTES : ℚ) * (SAMPLE_RATE : ℚ))

/-- Model of `_extend_mute`: `self._mute_until = max(self._mute_until, now + d)`. -/
def extendMute (mute_until now d : ℚ) : ℚ :=
  max mute_until (now + d)

/-- Effect of `_output_thread` handling one chunk on the mute deadline:
`self._extend_mute(duration_seconds + MUTE_PADDING_SECONDS)`. -/
def processChunk (mute_until : ℚ) (c : Chunk) : ℚ :=
  extendMute mute_until c.arrival (chunkDuration c + MUTE_PADDING_SECONDS)

/-- Mute deadline after a sequence of playback chunks, starting from the
`self._mute_until = 0.0` set in `start()`. -/
def processChunks (chunks : List Chunk) : ℚ :=
  chunks.foldl processChunk 0

/-- The deadline contributed by a single chunk:
arrival + byte_length / (sample_width * sample_rate) + padding. -/
def chunkDeadline (c : Chunk) : ℚ :=
  c.arrival + chunkDuration c + MUTE_PADDING_SECONDS

/-- Model of `_input_allowed`: `time.monotonic() >= self._mute_until`, the test
`_in_callback` applies to every captured microphone frame before passing
it to the user input callback. -/
def inputAllowed (mute_until now : ℚ) : Bool :=
  decide (mute_until ≤ now)

/-- Rows for a list of kept items with consecutive rowids from `n`. -/
def assignRows (n : Nat) : List VocabInsertItem → List VocabRow
  | [] => []
  | i :: rest => rowOf n i :: assignRows (n + 1) rest

/-- The `(english, chinese)` key of a stored row. -/
def keyOfRow (r : VocabRow) : String × String :=
  (r.english, r.chinese)

/-- Whether an event is the worker's `vocab` event (the only one whose
dict carries a non-scalar value). -/
def isVocabEvent : Event → Bool
  | .vocab _ => true
  | _ => false

/-- The value stored under `"type"` in a serialized event dict. -/
def typeField (fields : List (String × JValue)) : Option JValue :=
  (fields.find? fun p => p.1 == "type").map Prod.snd

/-! # Lemmas and theorems -/

lemma accumulate_go (cbs : List Callback) :
    ∀ acc : ConvAccum,
      (cbs.foldl applyCallback acc).user_lines
          = acc.user_lines ++ userUtterances cbs ∧
      (cbs.foldl applyCallback acc).agent_lines
          = acc.agent_lines ++ agentUtterances cbs ∧
      (cbs.foldl applyCallback acc).transcript_lines
          = acc.transcript_lines ++ cbs.map taggedLine := by
  induction cbs with
  | nil => intro acc; simp [userUtterances, agentUtterances]
  | cons cb rest ih =>
      intro acc
      have h := ih (applyCallback acc cb)
      cases cb <;>
        · simp only [applyCallback, List.foldl_cons] at h ⊢
          obtain ⟨h1, h2, h3⟩ := h
          simp [h1, h2, h3, userUtterances, agentUtterances, taggedLine]

lemma accumulate_spec (cbs : List Callback) :
    (accumulate cbs).user_lines = userUtterances cbs ∧
    (accumulate cbs).agent_lines = agentUtterances cbs ∧
    (accumulate cbs).transcript_lines = cbs.map taggedLine := by
  have h := accumulate_go cbs ConvAccum.init
  simpa [accumulate, ConvAccum.init] using h

/-- C3: for every finished session, `transcript_text` equals the
speaker-tagged lines (`User: ...` / `Agent: ...`) of every user/agent
callback received before `done`, joined in arrival order with newline
separators, and `user_text` / `agent_text` each equal their raw
utterances joined the same way. -/
theorem C3_transcript_joins (cbs : List Callback)
    (conversation_id started_at ended_at : String) :
    (runConversation cbs conversation_id started_at ended_at).transcript_text
        = String.intercalate "\n" (cbs.map taggedLine) ∧
    (runConversation cbs conversation_id started_at ended_at).user_text
        = String.intercalate "\n" (userUtterances cbs) ∧
    (runConversation cbs conversation_id started_at ended_at).agent_text
        = String.intercalate "\n" (agentUtterances cbs) := by
  obtain ⟨h1, h2, h3⟩ := accumulate_spec cbs
  simp [runConversation, h1, h2, h3]

/-- C4: an agent correction is appended to the agent history and the
transcript as a new line, never mutating earlier history in place; in
the scenario `agent_response("你好")` then
`agent_correction("你好","你好啊")` then session end, `agent_text` is
`"你好\n你好啊"`, the transcript holds both lines in that order, and
exactly one `done` event follows, as the last event of the worker
trace. -/
theorem C4_correction_appended :
    (runConversation [Callback.agent "你好", Callback.correction "你好" "你好啊"]
        "conv-1" "t0" "t1").agent_text = "你好\n你好啊" ∧
    (accumulate [Callback.agent "你好", Callback.correction "你好" "你好啊"]).transcript_lines
        = ["Agent: 你好", "Agent: 你好啊"] ∧
    (runConversation [Callback.agent "你好", Callback.correction "你好" "你好啊"]
        "conv-1" "t0" "t1").transcript_text = "Agent: 你好\nAgent: 你好啊" ∧
    (∀ (acc : ConvAccum) (o c : String),
        (applyCallback acc (Callback.correction o c)).agent_lines
            = acc.agent_lines ++ [c] ∧
        (applyCallback acc (Callback.correction o c)).transcript_lines
            = acc.transcript_lines ++ ["Agent: " ++ c] ∧
        (applyCallback acc (Callback.correction o c)).user_lines
            = acc.user_lines) ∧
    countDone (workerEvents (RunOutcome.ok
        (runConversation [Callback.agent "你好", Callback.correction "你好" "你好啊"]
          "conv-1" "t0" "t1") [] (some 1) [])) = 1 ∧
    (workerEvents (RunOutcome.ok
        (runConversation [Callback.agent "你好", Callback.correction "你好" "你好啊"]
          "conv-1" "t0" "t1") [] (some 1) [])).getLast?
        = some (Event.doneOk (some "conv-1") (some 1) 0 "t0" "t1") := by
  refine ⟨by rfl, by rfl, by rfl, ?_, by rfl, by rfl⟩
  intro acc o c
  exact ⟨rfl, rfl, rfl⟩

/-- C5: cancellation is not an error — a session cancelled while active
still assembles a fully populated `ConversationResult` containing every
utterance recorded before the cancellation took effect (two recorded
user utterances yield exactly those two in `user_text`), the worker's
final event is the success `done`, whose exit code is 0, and the stop
route sets the stop flag of the active handle. -/
theorem C5_cancellation_is_not_error (cbs : List Callback)
    (conversation_id started_at ended_at : String)
    (sid : Option Nat) (items : List VocabItem) (inner : List ConvEvent) :
    (runConversation cbs conversation_id started_at ended_at).user_text
        = String.intercalate "\n" (userUtterances cbs) ∧
    (runConversation cbs conversation_id started_at ended_at).agent_text
        = String.intercalate "\n" (agentUtterances cbs) ∧
    (runConversation cbs conversation_id started_at ended_at).transcript_text
        = String.intercalate "\n" (cbs.map taggedLine) ∧
    (runConversation cbs conversation_id started_at ended_at).started_at
        = started_at ∧
    (runConversation cbs conversation_id started_at ended_at).ended_at
        = ended_at ∧
    (runConversation cbs conversation_id started_at ended_at).metadata
        = [("conversation_id", conversation_id)] ∧
    (∀ u1 u2 : String,
        (runConversation [Callback.user u1, Callback.user u2]
            conversation_id started_at ended_at).user_text
          = String.intercalate "\n" [u1, u2]) ∧
    (workerEvents (RunOutcome.ok
          (runConversation cbs conversation_id started_at ended_at)
          inner sid items)).getLast?
        = some (Event.doneOk (some conversation_id) sid items.length
            started_at ended_at) ∧
    (Event.doneOk (some conversation_id) sid items.length
        started_at ended_at).exitCode = some 0 ∧
    (∀ c : ActiveChat,
        (stopChat ⟨some c⟩).2 = true ∧
        (stopChat ⟨some c⟩).1.active_chat = some ⟨true⟩) := by
  obtain ⟨h1, h2, h3⟩ := accumulate_spec cbs
  refine ⟨?_, ?_, ?_, rfl, rfl, rfl, ?_, ?_, rfl, ?_⟩
  · simp [runConversation, h1]
  · simp [runConversation, h2]
  · simp [runConversation, h3]
  · intro u1 u2
    obtain ⟨g1, _, _⟩ := accumulate_spec [Callback.user u1, Callback.user u2]
    simp [runConversation, g1, userUtterances]
  · simp only [workerEvents, runConversation, convIdOf, metaLookup]
    rw [List.getLast?_concat]
    simp [List.find?]
  · intro c
    exact ⟨rfl, rfl⟩

lemma convEvent_toEvent_not_done (c : ConvEvent) :
    (ConvEvent.toEvent c).isDone = false := by
  cases c <;> rfl

lemma countDone_append (a b : List Event) :
    countDone (a ++ b) = countDone a + countDone b := by
  simp [countDone, List.filter_append]

lemma countDone_map_conv (l : List ConvEvent) :
    countDone (l.map ConvEvent.toEvent) = 0 := by
  induction l with
  | nil => rfl
  | cons c rest ih =>
      simp [countDone, List.filter_cons, convEvent_toEvent_not_done c] at ih ⊢
      exact ih

lemma countDone_status_opt (c : Bool) (m : String) :
    countDone (if c then [Event.status m] else []) = 0 := by
  cases c <;> rfl

lemma countDone_vocab_opt (c : Bool) (items : List VocabItem) :
    countDone (if c then [] else [Event.vocab items]) = 0 := by
  cases c <;> rfl

lemma countDone_zero_cons (e : Event) (rest : List Event)
    (h : countDone (e :: rest) = 0) :
    e.isDone = false ∧ countDone rest = 0 := by
  by_cases he : e.isDone
  · simp [countDone, List.filter_cons, he] at h
  · refine ⟨by simpa using he, ?_⟩
    simpa [countDone, List.filter_cons, he] using h

lemma deliver_concat_done (pre : List Event) (d : Event)
    (hpre : countDone pre = 0) (hd : d.isDone = true) :
    deliverUntilDone (pre ++ [d]) = pre ++ [d] := by
  induction pre with
  | nil => simp [deliverUntilDone, hd]
  | cons e rest ih =>
      obtain ⟨he, hrest⟩ := countDone_zero_cons e rest hpre
      simp [deliverUntilDone, he, ih hrest]

lemma undelivered_of_deliver_eq (l : List Event)
    (h : deliverUntilDone l = l) : undelivered l = [] := by
  simp [undelivered, h]

lemma countDone_concat_done (pre : List Event) (d : Event)
    (hpre : countDone pre = 0) (hd : d.isDone = true) :
    countDone (pre ++ [d]) = 1 := by
  rw [countDone_append, hpre]
  simp [countDone, List.filter_cons, hd]

lemma workerEvents_ok_prefix_no_done (r : ConversationResult)
    (inner : List ConvEvent) (sid : Option Nat) (items : List VocabItem) :
    countDone ([Event.status "Starting live chat..."]
        ++ inner.map ConvEvent.toEvent
        ++ (if sessionIdTruthy sid then [Event.status "Saved session locally."] else [])
        ++ (if items.isEmpty then []
            else [Event.status ("Captured " ++ toString items.length ++ " vocab items.")])
        ++ (if items.isEmpty then [] else [Event.vocab items])) = 0 := by
  rw [countDone_append, countDone_append, countDone_append, countDone_append]
  rw [countDone_map_conv, countDone_status_opt, countDone_vocab_opt]
  have h3 : countDone (if items.isEmpty then []
      else [Event.status ("Captured " ++ toString items.length ++ " vocab items.")]) = 0 := by
    cases h : items.isEmpty <;> rfl
  rw [h3]
  rfl

/-- C1: for every session's worker trace, exactly one `done` event is
emitted, no event of any type follows it, the SSE generator delivers
every pushed event and closes immediately after forwarding `done`, so a
read after `done` yields no further events, and setting the stop event
again on close is a no-op. -/
theorem C1_exactly_one_done (o : RunOutcome) :
    countDone (workerEvents o) = 1 ∧
    (∃ pre d, workerEvents o = pre ++ [d] ∧ d.isDone = true ∧
        countDone pre = 0) ∧
    deliverUntilDone (workerEvents o) = workerEvents o ∧
    undelivered (workerEvents o) = [] ∧
    (∀ b : Bool, setStopEvent (setStopEvent b) = setStopEvent b) := by
  have main : ∃ pre d, workerEvents o = pre ++ [d] ∧ d.isDone = true ∧
      countDone pre = 0 := by
    cases o with
    | ok r inner sid items =>
        refine ⟨_, Event.doneOk (convIdOf r) sid items.length r.started_at r.ended_at,
          rfl, rfl, workerEvents_ok_prefix_no_done r inner sid items⟩
    | fail emitted msg =>
        refine ⟨[Event.status "Starting live chat..."]
            ++ emitted.map ConvEvent.toEvent ++ [Event.error msg],
          Event.doneErr, by simp [workerEvents], rfl, ?_⟩
        rw [countDone_append, countDone_append, countDone_map_conv]
        rfl
  obtain ⟨pre, d, heq, hd, hpre⟩ := main
  have hcount : countDone (workerEvents o) = 1 := by
    rw [heq]; exact countDone_concat_done pre d hpre hd
  have hdel : deliverUntilDone (workerEvents o) = workerEvents o := by
    rw [heq]; exact deliver_concat_done pre d hpre hd
  exact ⟨hcount, ⟨pre, d, heq, hd, hpre⟩, hdel,
    undelivered_of_deliver_eq _ hdel, fun _ => rfl⟩

/-- C6: a start request while a chat handle is set fails immediately
with the distinct 409 "already running" rejection, raised before any
queue, stop event or worker thread is created, and leaves the state of
the running session unchanged. -/
theorem C6_second_start_rejected (st : AppState) (c : ActiveChat)
    (h : st.active_chat = some c) :
    (startChatStream st).1 = st ∧
    (startChatStream st).2 = Except.error (StartError.alreadyRunning 409
      "A chat is already running. Stop it before starting a new one.") := by
  cases st with
  | mk active =>
      cases active with
      | none => simp at h
      | some c' => exact ⟨rfl, rfl⟩

/-- Witness for C6 at a concrete occupied state. -/
theorem C6_second_start_rejected_witness :
    (AppState.mk (some ⟨false⟩)).active_chat = some ⟨false⟩ ∧
    ((startChatStream ⟨some ⟨false⟩⟩).1 = (⟨some ⟨false⟩⟩ : AppState) ∧
      (startChatStream ⟨some ⟨false⟩⟩).2 = Except.error
        (StartError.alreadyRunning 409
          "A chat is already running. Stop it before starting a new one.")) :=
  ⟨rfl, C6_second_start_rejected ⟨some ⟨false⟩⟩ ⟨false⟩ rfl⟩

/-- C7: if audio-device initialization fails, `run_conversation` fails
with the distinct configuration-style error before any network step: no
transport client is created, no session open is attempted, and no event
is emitted; the raised error is surfaced, not swallowed. -/
theorem C7_audio_failure_before_connect (agent_id : String)
    (cbs : List Callback) (tss : List String)
    (conversation_id started_at ended_at : String) :
    (runConversationFull false agent_id cbs tss
        conversation_id started_at ended_at).result
      = Except.error (ConvFailure.audioInit audioErrorMessage) ∧
    (runConversationFull false agent_id cbs tss
        conversation_id started_at ended_at).events = [] ∧
    (runConversationFull false agent_id cbs tss
        conversation_id started_at ended_at).clientCreated = false ∧
    (runConversationFull false agent_id cbs tss
        conversation_id started_at ended_at).connectAttempted = false :=
  ⟨rfl, rfl, rfl, rfl⟩

lemma runDriver_acc (throws : Event → Bool) (cbs : List (Callback × String)) :
    ∀ st : DriverState,
      (runDriver throws cbs st).acc
        = (cbs.map Prod.fst).foldl applyCallback st.acc := by
  induction cbs with
  | nil => intro st; rfl
  | cons p rest ih =>
      intro st
      have h := ih (handleCallback throws st p)
      simpa [runDriver, handleCallback] using h

lemma runDriver_attempted (throws : Event → Bool)
    (cbs : List (Callback × String)) :
    ∀ st : DriverState,
      (runDriver throws cbs st).sink.attempted
        = st.sink.attempted
            ++ cbs.map fun p => ConvEvent.toEvent (callbackConvEvent p.1 p.2) := by
  induction cbs with
  | nil => intro st; simp [runDriver]
  | cons p rest ih =>
      intro st
      have h := ih (handleCallback throws st p)
      simp [runDriver, handleCallback, safeEmit] at h ⊢
      simp [h]

/-- C9: an exception thrown by the consumer-supplied event sink is
isolated to that single delivery — `_safe_emit` logs and swallows it —
so the accumulators, the set of attempted deliveries, and the processing
of every subsequent callback are identical to a run with a sink that
never throws; the session is not aborted. -/
theorem C9_sink_exception_isolated (throws : Event → Bool)
    (cbs : List (Callback × String)) (st : DriverState) :
    (runDriver throws cbs st).acc = (runDriver (fun _ => false) cbs st).acc ∧
    (runDriver throws cbs st).sink.attempted
        = (runDriver (fun _ => false) cbs st).sink.attempted ∧
    (runDriver throws cbs st).acc
        = (cbs.map Prod.fst).foldl applyCallback st.acc := by
  refine ⟨?_, ?_, runDriver_acc throws cbs st⟩
  · rw [runDriver_acc, runDriver_acc]
  · rw [runDriver_attempted, runDriver_attempted]

lemma processChunk_eq_max (m : ℚ) (c : Chunk) :
    processChunk m c = max m (chunkDeadline c) := by
  simp [processChunk, extendMute, chunkDeadline, add_assoc]

lemma processChunks_eq_foldl_max (chunks : List Chunk) :
    ∀ m : ℚ, chunks.foldl processChunk m
      = (chunks.map chunkDeadline).foldl max m := by
  induction chunks with
  | nil => intro m; rfl
  | cons c rest ih =>
      intro m
      simp only [List.foldl_cons, List.map_cons, processChunk_eq_max, ih]

lemma foldl_max_self_mem (t : List ℚ) : ∀ a : ℚ, t.foldl max a ∈ a :: t := by
  induction t with
  | nil => intro a; simp
  | cons b rest ih =>
      intro a
      have h := ih (max a b)
      simp only [List.foldl_cons]
      rcases List.mem_cons.mp h with h1 | h2
      · rw [h1]
        rcases max_choice a b with hm | hm <;> rw [hm] <;> simp
      · simp [h2]

lemma le_foldl_max (t : List ℚ) : ∀ a : ℚ, a ≤ t.foldl max a := by
  induction t with
  | nil => intro a; simp
  | cons b rest ih =>
      intro a
      simp only [List.foldl_cons]
      exact le_trans (le_max_left a b) (ih (max a b))

lemma mem_le_foldl_max (t : List ℚ) : ∀ a x : ℚ, x ∈ t → x ≤ t.foldl max a := by
  induction t with
  | nil => intro a x hx; simp at hx
  | cons b rest ih =>
      intro a x hx
      simp only [List.foldl_cons]
      rcases List.mem_cons.mp hx with h | h
      · subst h
        exact le_trans (le_max_right a x) (le_foldl_max rest (max a x))
      · exact ih (max a b) x h

lemma chunkDeadline_nonneg (c : Chunk) (h : 0 ≤ c.arrival) :
    0 ≤ chunkDeadline c := by
  have hdur : 0 ≤ chunkDuration c := by
    unfold chunkDuration
    positivity
  have hpad : (0 : ℚ) ≤ MUTE_PADDING_SECONDS := by
    norm_num [MUTE_PADDING_SECONDS]
  unfold chunkDeadline
  exact add_nonneg (add_nonneg h hdur) hpad

/-- C2: after any nonempty sequence of playback chunks (arrival times
taken nonnegative, as `time.monotonic()` is), the mute deadline equals
the maximum over all chunks of
`arrival + byte_length / (sample_width * sample_rate) + PADDING` with
`PADDING = 0.2`; processing a chunk never decreases the deadline, so
back-to-back chunks stack via the `max` rule; and a microphone frame is
passed through exactly when its arrival time is at or after the current
deadline. -/
theorem C2_gate_deadline_max (chunks : List Chunk)
    (hne : chunks ≠ []) (hpos : ∀ c ∈ chunks, 0 ≤ c.arrival) :
    processChunks chunks ∈ chunks.map chunkDeadline ∧
    (∀ x ∈ chunks.map chunkDeadline, x ≤ processChunks chunks) ∧
    (∀ (m : ℚ) (c : Chunk), m ≤ processChunk m c) ∧
    (∀ mute_until now : ℚ,
        inputAllowed mute_until now = true ↔ mute_until ≤ now) := by
  obtain ⟨c0, cs, rfl⟩ := List.exists_cons_of_ne_nil hne
  have h0 : 0 ≤ chunkDeadline c0 := chunkDeadline_nonneg c0 (hpos c0 (by simp))
  have heq : processChunks (c0 :: cs)
      = (cs.map chunkDeadline).foldl max (chunkDeadline c0) := by
    unfold processChunks
    rw [processChunks_eq_foldl_max]
    simp only [List.map_cons, List.foldl_cons]
    rw [max_eq_right h0]
  refine ⟨?_, ?_, ?_, ?_⟩
  · rw [heq]
    have h := foldl_max_self_mem (cs.map chunkDeadline) (chunkDeadline c0)
    simpa using h
  · intro x hx
    rw [heq]
    rw [List.map_cons] at hx
    rcases List.mem_cons.mp hx with h | h
    · rw [h]; exact le_foldl_max _ _
    · exact mem_le_foldl_max _ _ x h
  · intro m c
    rw [processChunk_eq_max]
    exact le_max_left _ _
  · intro mute_until now
    simp [inputAllowed]

/-- Witness for C2: two back-to-back chunks (1s of audio arriving at
time 0, 0.5s arriving at time 1). -/
theorem C2_gate_deadline_max_witness :
    ([⟨0, 32000⟩, ⟨1, 16000⟩] : List Chunk) ≠ [] ∧
    (∀ c ∈ ([⟨0, 32000⟩, ⟨1, 16000⟩] : List Chunk), 0 ≤ c.arrival) ∧
    (processChunks [⟨0, 32000⟩, ⟨1, 16000⟩]
        ∈ ([⟨0, 32000⟩, ⟨1, 16000⟩] : List Chunk).map chunkDeadline ∧
      (∀ x ∈ ([⟨0, 32000⟩, ⟨1, 16000⟩] : List Chunk).map chunkDeadline,
          x ≤ processChunks [⟨0, 32000⟩, ⟨1, 16000⟩]) ∧
      (∀ (m : ℚ) (c : Chunk), m ≤ processChunk m c) ∧
      (∀ mute_until now : ℚ,
          inputAllowed mute_until now = true ↔ mute_until ≤ now)) :=
  ⟨by decide, by decide,
    C2_gate_deadline_max [⟨0, 32000⟩, ⟨1, 16000⟩] (by decide) (by decide)⟩

lemma assignRows_length : ∀ (l : List VocabInsertItem) (n : Nat),
    (assignRows n l).length = l.length := by
  intro l
  induction l with
  | nil => intro n; rfl
  | cons i rest ih => intro n; simp [assignRows, ih]

lemma assignRows_map_rowid : ∀ (l : List VocabInsertItem) (n : Nat),
    (assignRows n l).map VocabRow.rowid = List.range' n l.length := by
  intro l
  induction l with
  | nil => intro n; rfl
  | cons i rest ih =>
      intro n
      simp [assignRows, rowOf, List.range'_succ, ih]

lemma assignRows_keys : ∀ (l : List VocabInsertItem) (n : Nat),
    (assignRows n l).map keyOfRow = l.map keyOf := by
  intro l
  induction l with
  | nil => intro n; rfl
  | cons i rest ih =>
      intro n
      simp only [assignRows, List.map_cons, ih]
      rfl

lemma spec_keys : ∀ (items : List VocabInsertItem)
    (seen : List (String × String)),
    ((specFirstOccurrences seen items).map keyOf).Nodup ∧
    ∀ k ∈ (specFirstOccurrences seen items).map keyOf, k ∉ seen := by
  intro items
  induction items with
  | nil => intro seen; simp [specFirstOccurrences]
  | cons i rest ih =>
      intro seen
      by_cases hmem : keyOf i ∈ seen
      · simpa [specFirstOccurrences, hmem] using ih seen
      · have h := ih (keyOf i :: seen)
        simp only [specFirstOccurrences, if_neg hmem, List.map_cons]
        refine ⟨List.nodup_cons.mpr ⟨?_, h.1⟩, ?_⟩
        · intro hk
          exact (h.2 (keyOf i) hk) (by simp)
        · intro k hk
          rcases List.mem_cons.mp hk with h1 | h2
          · rw [h1]; exact hmem
          · intro hks
            exact (h.2 k h2) (by simp [hks])

lemma spec_complete : ∀ (items : List VocabInsertItem)
    (seen : List (String × String)) (i : VocabInsertItem),
    i ∈ items →
      keyOf i ∈ seen ∨
      keyOf i ∈ (specFirstOccurrences seen items).map keyOf := by
  intro items
  induction items with
  | nil => intro seen i hi; simp at hi
  | cons j rest ih =>
      intro seen i hi
      by_cases hmem : keyOf j ∈ seen
      · simp only [specFirstOccurrences, if_pos hmem]
        rcases List.mem_cons.mp hi with h | h
        · left; rw [h]; exact hmem
        · exact ih seen i h
      · simp only [specFirstOccurrences, if_neg hmem, List.map_cons]
        rcases List.mem_cons.mp hi with h | h
        · right; rw [h]; simp
        · rcases ih (keyOf j :: seen) i h with hl | hr
          · rcases List.mem_cons.mp hl with h1 | h2
            · right; rw [h1]; simp
            · left; exact h2
          · right; exact List.mem_cons_of_mem _ hr

lemma insert_go (firstId : Nat) : ∀ (items : List VocabInsertItem)
    (st : InsertState),
    (items.foldl (insertStep firstId) st).ids
        = st.ids ++ (assignRows (firstId + st.rows.length)
            (specFirstOccurrences st.seen items)).map VocabRow.rowid ∧
    (items.foldl (insertStep firstId) st).rows
        = st.rows ++ assignRows (firstId + st.rows.length)
            (specFirstOccurrences st.seen items) := by
  intro items
  induction items with
  | nil => intro st; simp [specFirstOccurrences, assignRows]
  | cons i rest ih =>
      intro st
      by_cases hmem : keyOf i ∈ st.seen
      · have hstep : insertStep firstId st i = st := by
          simp [insertStep, if_pos hmem]
        simp only [List.foldl_cons, hstep, specFirstOccurrences, if_pos hmem]
        exact ih st
      · have hstep : insertStep firstId st i
            = ⟨keyOf i :: st.seen,
               st.ids ++ [firstId + st.rows.length],
               st.rows ++ [rowOf (firstId + st.rows.length) i]⟩ := by
          simp [insertStep, if_neg hmem]
        obtain ⟨ih1, ih2⟩ := ih (insertStep firstId st i)
        rw [hstep] at ih1 ih2
        simp only [List.length_append, List.length_cons, List.length_nil] at ih1 ih2
        simp only [List.foldl_cons, hstep, specFirstOccurrences, if_neg hmem]
        constructor
        · rw [ih1]
          simp [assignRows, List.append_assoc, rowOf, Nat.add_assoc]
        · rw [ih2]
          simp [assignRows, List.append_assoc, Nat.add_assoc]

/-- C10: one `insert_vocab_items` call inserts at most one row per
distinct `(english, chinese)` pair — any later item whose pair equals an
earlier item's pair in the same call is skipped, every pair occurring in
the call is represented — and the returned list holds exactly one rowid
per inserted row, consecutive and in insertion order. -/
theorem C10_insert_dedup (items : List VocabInsertItem) (firstId : Nat) :
    (insertVocabItems items firstId).1
        = (insertVocabItems items firstId).2.map VocabRow.rowid ∧
    (insertVocabItems items firstId).1
        = List.range' firstId (insertVocabItems items firstId).2.length ∧
    (insertVocabItems items firstId).2
        = assignRows firstId (specFirstOccurrences [] items) ∧
    ((insertVocabItems items firstId).2.map keyOfRow).Nodup ∧
    (items.all fun i =>
        decide (keyOf i ∈ (insertVocabItems items firstId).2.map keyOfRow))
      = true := by
  obtain ⟨h1, h2⟩ := insert_go firstId items ⟨[], [], []⟩
  have hids : (insertVocabItems items firstId).1
      = (assignRows firstId (specFirstOccurrences [] items)).map VocabRow.rowid := by
    simpa [insertVocabItems] using h1
  have hrows : (insertVocabItems items firstId).2
      = assignRows firstId (specFirstOccurrences [] items) := by
    simpa [insertVocabItems] using h2
  refine ⟨?_, ?_, hrows, ?_, ?_⟩
  · rw [hids, hrows]
  · rw [hids, hrows, assignRows_map_rowid, assignRows_length]
  · rw [hrows, assignRows_keys]
    exact (spec_keys items []).1
  · rw [List.all_eq_true]
    intro i hi
    rw [decide_eq_true_iff]
    rw [hrows, assignRows_keys]
    rcases spec_complete items [] i hi with h | h
    · simp at h
    · exact h

lemma optStr_isScalar (o : Option String) : (optStr o).isScalar = true := by
  cases o <;> rfl

lemma optNat_isScalar (o : Option Nat) : (optNat o).isScalar = true := by
  cases o <;> rfl

/-- C8 counterexample: the claim fails on the code — the worker's
`vocab` event carries a list of item maps under `"items"`, so its
serialization is not a flat mapping of string fields; likewise both
`done` shapes carry the integer field `exit_code`; and the error-path
trace's type vocabulary is `status`/`error`/`done`, with no
`vocabulary_captured` variant anywhere. -/
theorem C8_counterexample :
    Event.vocab [[("english", "hi"), ("chinese", "ni hao")]]
        ∈ workerEvents (RunOutcome.ok
            (runConversation [] "conv-1" "t0" "t1") [] (some 1)
            [[("english", "hi"), ("chinese", "ni hao")]]) ∧
    flatStringMap (serialize
        (Event.vocab [[("english", "hi"), ("chinese", "ni hao")]])) = false ∧
    Event.doneErr ∈ workerEvents (RunOutcome.fail [] "boom") ∧
    flatStringMap (serialize Event.doneErr) = false ∧
    (workerEvents (RunOutcome.fail [] "boom")).map Event.typeOf
        = ["status", "error", "done"] := by
  refine ⟨?_, rfl, ?_, rfl, rfl⟩
  · decide
  · decide

/-- C8 amended: every event surfaced to the streaming consumer
serializes as a mapping whose `"type"` field is a string drawn from
`status`, `user_transcript`, `agent_response`, `agent_correction`,
`summary`, `vocab`, `error`, `done`; every event except `vocab` is a
flat mapping of scalar (string/integer/null) fields, while `vocab`
carries a list of flat string maps; there is no `vocabulary_captured`
variant (its role is played by a `status` message and the `vocab`
event). -/
theorem C8_amended_event_vocabulary (e : Event) :
    typeField (serialize e) = some (JValue.str e.typeOf) ∧
    e.typeOf ∈ ["status", "user_transcript", "agent_response",
        "agent_correction", "summary", "vocab", "error", "done"] ∧
    (isVocabEvent e || flatScalarMap (serialize e)) = true ∧
    (e.typeOf == "vocabulary_captured") = false := by
  refine ⟨?_, ?_, ?_, ?_⟩
  · cases e <;> rfl
  · cases e <;> · simp only [Event.typeOf]; decide
  · cases e with
    | doneOk cid sid vc s en => cases cid <;> cases sid <;> rfl
    | status m => rfl
    | user_transcript t ts => rfl
    | agent_response t ts => rfl
    | agent_correction t ts => rfl
    | summary u a c => rfl
    | vocab items => rfl
    | error m => rfl
    | doneErr => rfl
  · cases e <;> · simp only [Event.typeOf]; decide

end ChineseTutor
